import Mathlib

/-!
# Verification of the log-distributor core

A shallow embedding of the distributor service:

* `Breaker` — the three-state circuit breaker of
  `services/distributor/app/simple_circuit_breaker.py`, with
  `allow_request`, `record_success`, `record_failure`, `trip_open`,
  `transition_to_closed` translated operation by operation.  The
  monotonic clock is passed in explicitly as a rational `now`.
* association-list dictionaries with Python `dict.update` semantics,
  used by the Config Watcher (`poll_weights_updates` in
  `services/distributor/app/main.py`).
* the weighted selector `weighted_analyzer_choice`, including the
  cumulative-weights + binary-search (`bisect_right`) sampling of
  Python's `random.choices`, parametrised by the uniform draw
  `u ∈ [0,1)`.
* the `/ingest` dispatcher loop with its retry-over-candidates
  semantics, breaker interaction and Prometheus counters, and the
  pydantic-style validation of `LogPacket`.
-/

namespace Distributor

/-- `BreakerState` of `simple_circuit_breaker.py` (`closed/open/half_open`). -/
inductive BreakerState where
  | closed
  | opened
  | halfOpen
deriving DecidableEq, Repr

/-- The mutable state of one `SimpleCircuitBreaker` instance together with its
(validated) configuration.  Thresholds are Python ints (positive after the
constructor checks), the clock values are modelled as rationals. -/
structure Breaker where
  failure_threshold : ℕ
  recovery_timeout : ℚ
  half_open_success_threshold : ℕ
  state : BreakerState
  consecutive_failures : ℕ
  half_open_successes : ℕ
  opened_at : Option ℚ
deriving DecidableEq, Repr

namespace Breaker

/-- `SimpleCircuitBreaker.__init__` after its validation checks: CLOSED with
zero counters and no `opened_at`. -/
def init (ft : ℕ) (rt : ℚ) (host : ℕ) : Breaker :=
  { failure_threshold := ft
    recovery_timeout := rt
    half_open_success_threshold := host
    state := .closed
    consecutive_failures := 0
    half_open_successes := 0
    opened_at := none }

/-- The constructor including its `ValueError` checks
(`failure_threshold > 0`, `recovery_timeout > 0`,
`half_open_success_threshold > 0`). -/
def mk? (ft : ℕ) (rt : ℚ) (host : ℕ) : Option Breaker :=
  if ft = 0 ∨ rt ≤ 0 ∨ host = 0 then none else some (init ft rt host)

/-- `SimpleCircuitBreaker.trip_open`: stamp `opened_at`, clear both counters,
transition to OPEN. -/
def trip_open (now : ℚ) (b : Breaker) : Breaker :=
  { b with
    opened_at := some now
    consecutive_failures := 0
    half_open_successes := 0
    state := .opened }

/-- `SimpleCircuitBreaker.transition_to_closed`: clear `opened_at` and both
counters, transition to CLOSED. -/
def transition_to_closed (b : Breaker) : Breaker :=
  { b with
    opened_at := none
    consecutive_failures := 0
    half_open_successes := 0
    state := .closed }

/-- `SimpleCircuitBreaker.allow_request` at monotonic time `now`; returns the
updated breaker and the boolean result. -/
def allow_request (now : ℚ) (b : Breaker) : Breaker × Bool :=
  match b.state with
  | .opened =>
      match b.opened_at with
      | some t =>
          if b.recovery_timeout ≤ now - t then
            ({ b with state := .halfOpen, half_open_successes := 0 }, true)
          else
            (b, false)
      | none => (b, false)
  | _ => (b, true)

/-- `SimpleCircuitBreaker.record_success`. -/
def record_success (b : Breaker) : Breaker :=
  if b.state = .halfOpen then
    let b' := { b with half_open_successes := b.half_open_successes + 1 }
    if b.half_open_success_threshold ≤ b'.half_open_successes then
      transition_to_closed b'
    else
      b'
  else
    { b with consecutive_failures := 0 }

/-- `SimpleCircuitBreaker.record_failure` at monotonic time `now`. -/
def record_failure (now : ℚ) (b : Breaker) : Breaker :=
  if b.state = .halfOpen then
    trip_open now b
  else
    let b' := { b with consecutive_failures := b.consecutive_failures + 1 }
    if b'.state = .closed ∧ b.failure_threshold ≤ b'.consecutive_failures then
      trip_open now b'
    else
      b'

/-- One operation applied to a breaker: an `allow_request`, a
`record_success`, or a `record_failure`, with the monotonic time of the call
where the code reads the clock. -/
inductive Op where
  | allow (now : ℚ)
  | success
  | failure (now : ℚ)
deriving DecidableEq, Repr

/-- Apply one operation (the boolean result of `allow_request` is dropped). -/
def step (b : Breaker) : Op → Breaker
  | .allow now => (allow_request now b).1
  | .success => record_success b
  | .failure now => record_failure now b

/-- Run a sequence of operations from a given breaker. -/
def run (b : Breaker) (ops : List Op) : Breaker :=
  ops.foldl step b

/-- Breaker states reachable from a validated constructor call by any
sequence of `allow_request` / `record_success` / `record_failure`. -/
inductive Reachable : Breaker → Prop where
  | init (ft : ℕ) (rt : ℚ) (host : ℕ) (hft : 0 < ft) (hrt : 0 < rt)
      (hhost : 0 < host) : Reachable (init ft rt host)
  | step (b : Breaker) (op : Op) : Reachable b → Reachable (step b op)

/-- A sequence of `record_failure` calls at the given times. -/
def record_failure_seq (b : Breaker) (ts : List ℚ) : Breaker :=
  ts.foldl (fun b t => record_failure t b) b

end Breaker

/-! ## The Config Watcher's weight map

Python `dict`s keyed by analyzer name, embedded as association lists with
first-match lookup; `dset` is `d[k] = v` (overwrite in place or append),
`dict_update` is `d.update(src)`. -/

/-- `d.get(k)` on a Python dict (no default). -/
def dget : List (String × ℚ) → String → Option ℚ
  | [], _ => none
  | (k', v') :: rest, k => if k' = k then some v' else dget rest k

/-- `d[k] = v` on a Python dict: overwrite the existing entry in place, or
append a new one. -/
def dset : List (String × ℚ) → String → ℚ → List (String × ℚ)
  | [], k, v => [(k, v)]
  | (k', v') :: rest, k, v =>
      if k' = k then (k', v) :: rest else (k', v') :: dset rest k v

/-- `m.update(src)` on Python dicts: set every key of `src` in `m`, in
order. -/
def dict_update (m src : List (String × ℚ)) : List (String × ℚ) :=
  src.foldl (fun acc kv => dset acc kv.1 kv.2) m

/-- One iteration of `poll_weights_updates` in `main.py`: read the weight
document from the store (`none` models a missing document); the body
executes `ctx.weight_map.update(current_weights_mapping)` where the mapping
is the document's `values` if present and `DEFAULT_ANALYZER_TO_WEIGHTS`
otherwise. -/
def poll_weights_tick (defaults : List (String × ℚ))
    (store : Option (List (String × ℚ))) (m : List (String × ℚ)) :
    List (String × ℚ) :=
  dict_update m (match store with | some vs => vs | none => defaults)

/-- A sequence of watcher ticks with the store observations given. -/
def poll_weights_run (defaults : List (String × ℚ))
    (stores : List (Option (List (String × ℚ))))
    (m : List (String × ℚ)) : List (String × ℚ) :=
  stores.foldl (fun m st => poll_weights_tick defaults st m) m

/-- The `startup` handler seeds the (empty) weight map with
`DEFAULT_ANALYZER_TO_WEIGHTS` via `ctx.weight_map.update(...)`. -/
def startup_weight_map (defaults : List (String × ℚ)) : List (String × ℚ) :=
  dict_update [] defaults

/-! ## The weighted selector

`weighted_analyzer_choice` in `main.py` calls `random.choices(candidates,
weights=current_weights, k=1)`.  CPython's `random.choices` builds the list
of cumulative weights, draws `x = random() * total` and returns
`population[bisect.bisect_right(cum_weights, x, 0, n - 1)]`.  We embed
`bisect_right` (its actual binary search, which on non-sorted cumulative
lists is what the code executes) and parametrise the selector by the
uniform draw `u ∈ [0,1)`. -/

/-- `bisect.bisect_right(a, x, lo, hi)` where the list is accessed through
`f`. -/
def bisect (f : ℕ → ℚ) (x : ℚ) (lo hi : ℕ) : ℕ :=
  if h : lo < hi then
    if x < f ((lo + hi) / 2) then bisect f x lo ((lo + hi) / 2)
    else bisect f x ((lo + hi) / 2 + 1) hi
  else lo
termination_by hi - lo
decreasing_by
  all_goals omega

/-- `sum(ws[:i])`, the cumulative weight strictly before index `i`. -/
def prefixW (ws : List ℚ) (i : ℕ) : ℚ :=
  ((ws.take i).sum)

/-- The index computed by `random.choices(..., k=1)` for the draw
`x = random() * total`: `bisect(cum_weights, x, 0, n - 1)` where
`cum_weights[j] = sum(ws[:j+1])`. -/
def pickIdx (ws : List ℚ) (x : ℚ) : ℕ :=
  bisect (fun j => prefixW ws (j + 1)) x 0 (ws.length - 1)

/-- `current_weights = [ctx.weight_map.get(candidate, 0.0) for candidate in
candidates]`. -/
def choice_weights (wm : List (String × ℚ)) (cands : List String) :
    List ℚ :=
  cands.map (fun c => (dget wm c).getD 0)

/-- The 0-based index into `candidates` that `weighted_analyzer_choice`
selects when the library's `random()` yields `u`: if
`sum(current_weights) <= 0` the weights are replaced by `[1.0] * len`,
then `random.choices` draws `x = u * total` over the cumulative weights. -/
def weighted_analyzer_choice_idx (wm : List (String × ℚ))
    (cands : List String) (u : ℚ) : ℕ :=
  if (choice_weights wm cands).sum ≤ 0 then
    pickIdx (List.replicate cands.length 1)
      (u * (List.replicate cands.length (1 : ℚ)).sum)
  else
    pickIdx (choice_weights wm cands) (u * (choice_weights wm cands).sum)

/-- `weighted_analyzer_choice(candidates)` with weight map `wm` and uniform
draw `u`. -/
def weighted_analyzer_choice (wm : List (String × ℚ))
    (cands : List String) (u : ℚ) : String :=
  cands.getD (weighted_analyzer_choice_idx wm cands u) ""

/-! ## The `/ingest` dispatcher

The handler in `main.py`: validate the `LogPacket` body (pydantic), then
retry over the candidate analyzers — weighted choice over the not-yet-tried
ones, breaker gate, RPC — until one accepts or all have been tried.  The
RPC outcome is the external parameter `rpc`; `us`, `tA` and `tF` supply
the `random()` draws and the monotonic-clock reads of iteration `k`. -/

/-- A validated `LogMessage` (pydantic model in `main.py`). -/
structure LogMessage where
  timestamp : String
  level : String
  message : String
  attrs : List (String × String)
deriving DecidableEq, Repr

/-- A validated `LogPacket`. -/
structure LogPacket where
  source_id : String
  messages : List LogMessage
deriving DecidableEq, Repr

/-- A request-body message before validation: `none` marks an absent
field. -/
structure RawLogMessage where
  timestamp : Option String
  level : Option String
  message : Option String
  attrs : Option (List (String × String))
deriving DecidableEq, Repr

/-- A request body before validation. -/
structure RawLogPacket where
  source_id : Option String
  messages : Option (List RawLogMessage)
deriving DecidableEq, Repr

/-- Pydantic validation of one message: `timestamp` and `message` are
required strings (any string, the empty string included); `level` defaults
to `"INFO"` and `attrs` to `{}`. -/
def validate_log_message (r : RawLogMessage) : Option LogMessage :=
  match r.timestamp, r.message with
  | some t, some m => some ⟨t, r.level.getD "INFO", m, r.attrs.getD []⟩
  | _, _ => none

/-- Pydantic validation of the body: `messages` is a required list (the
empty list included); `source_id` defaults to `"sim"`. -/
def validate_log_packet (r : RawLogPacket) : Option LogPacket :=
  match r.messages with
  | none => none
  | some ms =>
      (ms.mapM validate_log_message).map
        (fun msgs => ⟨(r.source_id).getD "sim", msgs⟩)

/-- The handler's result: a 200 JSON body or an `HTTPException`. -/
inductive IngestResult where
  | ok (accepted_by : String) (count : ℕ)
  | err (status : ℕ) (detail : String)
deriving DecidableEq, Repr

/-- `remaining = [c for c in candidates if c not in tried]` followed by
`target = weighted_analyzer_choice(remaining)`. -/
def loop_target (wm : List (String × ℚ)) (cands tried : List String)
    (u : ℚ) : String :=
  weighted_analyzer_choice wm (cands.filter (fun c => !tried.contains c)) u

/-- In-place mutation of `ctx.circuit_breakers[n]`. -/
def update_bk (bk : String → Breaker) (n : String) (b : Breaker) :
    String → Breaker :=
  fun m => if m = n then b else bk m

/-- The retry loop of `ingest`: `while len(tried) < len(candidates)`.
Returns the result, the breakers after the call, and the increments of
`SUCCESS` and `FAILURE`.  The fuel argument only bounds the iteration
count; `ingest` passes enough for the loop to exit by its own
condition. -/
def ingest_loop (wm : List (String × ℚ)) (cands : List String)
    (rpc : String → Bool) (us tA tF : ℕ → ℚ) (count : ℕ) :
    ℕ → List String → (String → Breaker) → ℕ → ℕ → ℕ →
      IngestResult × (String → Breaker) × ℕ × ℕ
  | 0, _, bk, _, succ, fail =>
      (.err 503 "All analyzers are blocked by circuit breakers.", bk, succ,
        fail)
  | fuel + 1, tried, bk, step, succ, fail =>
      if tried.length < cands.length then
        if (Breaker.allow_request (tA step)
            (bk (loop_target wm cands tried (us step)))).2 then
          if rpc (loop_target wm cands tried (us step)) then
            (.ok (loop_target wm cands tried (us step)) count,
              update_bk bk (loop_target wm cands tried (us step))
                (Breaker.record_success
                  (Breaker.allow_request (tA step)
                    (bk (loop_target wm cands tried (us step)))).1),
              succ + 1, fail)
          else
            ingest_loop wm cands rpc us tA tF count fuel
              (tried ++ [loop_target wm cands tried (us step)])
              (update_bk bk (loop_target wm cands tried (us step))
                (Breaker.record_failure (tF step)
                  (Breaker.allow_request (tA step)
                    (bk (loop_target wm cands tried (us step)))).1))
              (step + 1) succ (fail + 1)
        else
          ingest_loop wm cands rpc us tA tF count fuel
            (tried ++ [loop_target wm cands tried (us step)])
            (update_bk bk (loop_target wm cands tried (us step))
              (Breaker.allow_request (tA step)
                (bk (loop_target wm cands tried (us step)))).1)
            (step + 1) succ fail
      else
        (.err 503 "All analyzers are blocked by circuit breakers.", bk, succ,
          fail)

/-- The `ingest` handler after validation: empty candidate list → 503,
otherwise the retry loop starting from `tried = ∅`. -/
def ingest (cands : List String) (wm : List (String × ℚ))
    (bk : String → Breaker) (rpc : String → Bool) (us tA tF : ℕ → ℚ)
    (count : ℕ) : IngestResult × (String → Breaker) × ℕ × ℕ :=
  if cands.isEmpty then
    (.err 503 "analyzer_hosts not yet initialized?", bk, 0, 0)
  else
    ingest_loop wm cands rpc us tA tF count (cands.length + 1) [] bk 0 0 0

/-- `POST /ingest`: pydantic validation (422 on failure, before the handler
body runs), then the handler. -/
def post_ingest (r : RawLogPacket) (cands : List String)
    (wm : List (String × ℚ)) (bk : String → Breaker) (rpc : String → Bool)
    (us tA tF : ℕ → ℚ) : IngestResult × (String → Breaker) × ℕ × ℕ :=
  match validate_log_packet r with
  | none => (.err 422 "validation error", bk, 0, 0)
  | some p => ingest cands wm bk rpc us tA tF p.messages.length

namespace Breaker

theorem record_failure_closed_no_trip (b : Breaker) (now : ℚ)
    (hb : b.state = .closed)
    (h : b.consecutive_failures + 1 < b.failure_threshold) :
    record_failure now b =
      { b with consecutive_failures := b.consecutive_failures + 1 } := by
  simp only [record_failure, hb]
  split
  · simp_all
  · split
    · omega
    · rfl

theorem record_failure_closed_trip (b : Breaker) (now : ℚ)
    (hb : b.state = .closed)
    (h : b.failure_threshold ≤ b.consecutive_failures + 1) :
    record_failure now b =
      { b with state := .opened, consecutive_failures := 0,
               half_open_successes := 0, opened_at := some now } := by
  simp only [record_failure, hb]
  split
  · simp_all
  · split
    · rfl
    · simp_all [trip_open]

theorem record_failure_seq_closed (ts : List ℚ) (b : Breaker)
    (hb : b.state = .closed)
    (h : b.consecutive_failures + ts.length < b.failure_threshold) :
    record_failure_seq b ts =
      { b with consecutive_failures := b.consecutive_failures + ts.length } := by
  induction ts generalizing b with
  | nil => simp [record_failure_seq]
  | cons t ts ih =>
      have hstep : record_failure t b =
          { b with consecutive_failures := b.consecutive_failures + 1 } := by
        apply record_failure_closed_no_trip b t hb
        simp at h; omega
      have : record_failure_seq b (t :: ts) =
          record_failure_seq (record_failure t b) ts := rfl
      rw [this, hstep, ih _ (by simpa using hb) (by simp at h ⊢; omega)]
      simp; omega

theorem record_success_not_half_open (b : Breaker)
    (hb : b.state ≠ .halfOpen) :
    record_success b = { b with consecutive_failures := 0 } := by
  simp only [record_success]
  split
  · simp_all
  · rfl

theorem record_success_half_open_below (b : Breaker)
    (hb : b.state = .halfOpen)
    (h : b.half_open_successes + 1 < b.half_open_success_threshold) :
    record_success b =
      { b with half_open_successes := b.half_open_successes + 1 } := by
  simp only [record_success, hb]
  split
  · split
    · omega
    · rfl
  · simp_all

theorem record_success_half_open_close (b : Breaker)
    (hb : b.state = .halfOpen)
    (h : b.half_open_success_threshold ≤ b.half_open_successes + 1) :
    record_success b =
      { b with state := .closed, consecutive_failures := 0,
               half_open_successes := 0, opened_at := none } := by
  simp only [record_success, hb]
  split
  · simp [transition_to_closed]
  · rename_i hcond
    simp at hcond

theorem record_failure_half_open (b : Breaker) (now : ℚ)
    (hb : b.state = .halfOpen) :
    record_failure now b =
      { b with state := .opened, consecutive_failures := 0,
               half_open_successes := 0, opened_at := some now } := by
  simp only [record_failure, hb]
  split
  · simp [trip_open]
  · simp_all

theorem record_failure_opened (b : Breaker) (now : ℚ)
    (hb : b.state = .opened) :
    record_failure now b =
      { b with consecutive_failures := b.consecutive_failures + 1 } := by
  simp only [record_failure]
  split
  · simp_all
  · split
    · simp_all
    · rfl

theorem record_success_iter_half_open (m : ℕ) (b : Breaker)
    (hb : b.state = .halfOpen)
    (h : b.half_open_successes + m < b.half_open_success_threshold) :
    record_success^[m] b =
      { b with half_open_successes := b.half_open_successes + m } := by
  induction m generalizing b with
  | zero => simp
  | succ m ih =>
      rw [Function.iterate_succ_apply,
        record_success_half_open_below b hb (by omega),
        ih _ (by simpa using hb) (by simp; omega)]
      simp; omega

end Breaker

/-- C1: starting from the freshly constructed CLOSED breaker with zero
counters (threshold `k = failure_threshold > 0`), any run of fewer than `k`
consecutive `record_failure` calls stays CLOSED with
`consecutive_failures` equal to the number of failures; the `k`-th
consecutive `record_failure` (at time `t`) transitions to OPEN with
`opened_at = t` and both counters reset; and a single `record_success`
before the `k`-th failure returns the breaker to its initial CLOSED state
(`consecutive_failures = 0`). -/
theorem closed_opens_exactly_at_kth_failure (ft : ℕ) (rt : ℚ) (host : ℕ)
    (_hft : 0 < ft) :
    (∀ ts : List ℚ, ts.length < ft →
        Breaker.record_failure_seq (Breaker.init ft rt host) ts =
          { Breaker.init ft rt host with consecutive_failures := ts.length }) ∧
    (∀ (ts : List ℚ) (t : ℚ), ts.length + 1 = ft →
        Breaker.record_failure t
            (Breaker.record_failure_seq (Breaker.init ft rt host) ts) =
          { Breaker.init ft rt host with
              state := .opened, opened_at := some t }) ∧
    (∀ ts : List ℚ, ts.length < ft →
        Breaker.record_success
            (Breaker.record_failure_seq (Breaker.init ft rt host) ts) =
          Breaker.init ft rt host) := by
  refine ⟨?_, ?_, ?_⟩
  · intro ts hlen
    rw [Breaker.record_failure_seq_closed ts _ rfl (by simp [Breaker.init]; omega)]
    simp [Breaker.init]
  · intro ts t hlen
    rw [Breaker.record_failure_seq_closed ts _ rfl (by simp [Breaker.init]; omega),
      Breaker.record_failure_closed_trip _ t (by simp [Breaker.init])
        (by simp [Breaker.init]; omega)]
    simp [Breaker.init]
  · intro ts hlen
    rw [Breaker.record_failure_seq_closed ts _ rfl (by simp [Breaker.init]; omega),
      Breaker.record_success_not_half_open _ (by simp [Breaker.init])]
    simp [Breaker.init]

/-- Witness for C1 at `failure_threshold = 2`: one failure keeps the breaker
CLOSED with one counted failure, the second failure opens it, and a success
after the first failure resets the counter. -/
theorem closed_opens_exactly_at_kth_failure_witness :
    (Breaker.record_failure_seq (Breaker.init 2 5 1) [3] =
      { Breaker.init 2 5 1 with consecutive_failures := 1 }) ∧
    (Breaker.record_failure 4
        (Breaker.record_failure_seq (Breaker.init 2 5 1) [3]) =
      { Breaker.init 2 5 1 with state := .opened, opened_at := some 4 }) ∧
    (Breaker.record_success (Breaker.record_failure_seq (Breaker.init 2 5 1) [3]) =
      Breaker.init 2 5 1) :=
  ⟨(closed_opens_exactly_at_kth_failure 2 5 1 (by decide)).1 [3] (by decide),
   (closed_opens_exactly_at_kth_failure 2 5 1 (by decide)).2.1 [3] 4 (by decide),
   (closed_opens_exactly_at_kth_failure 2 5 1 (by decide)).2.2 [3] (by decide)⟩

/-- C2: for a breaker in the OPEN state with `opened_at = some t`,
`allow_request` at time `now` with `now - t < recovery_timeout` returns
`false` and leaves the breaker unchanged, while the first `allow_request`
with `now - t ≥ recovery_timeout` transitions the breaker to HALF_OPEN,
resets `half_open_successes` to 0, and returns `true`. -/
theorem open_allow_request_cooldown (b : Breaker) (t now : ℚ)
    (hb : b.state = .opened) (ht : b.opened_at = some t) :
    (now - t < b.recovery_timeout →
        Breaker.allow_request now b = (b, false)) ∧
    (b.recovery_timeout ≤ now - t →
        Breaker.allow_request now b =
          ({ b with state := .halfOpen, half_open_successes := 0 }, true)) := by
  constructor
  · intro h
    simp [Breaker.allow_request, hb, ht]
    linarith
  · intro h
    simp [Breaker.allow_request, hb, ht, h]

/-- Witness for C2: a breaker opened at time 0 with `recovery_timeout = 5`
denies a request at time 3 and grants (and half-opens on) a request at
time 5. -/
theorem open_allow_request_cooldown_witness :
    (Breaker.allow_request 3
        { Breaker.init 2 5 1 with state := .opened, opened_at := some 0 } =
      ({ Breaker.init 2 5 1 with state := .opened, opened_at := some 0 }, false)) ∧
    (Breaker.allow_request 5
        { Breaker.init 2 5 1 with state := .opened, opened_at := some 0 } =
      ({ Breaker.init 2 5 1 with state := .halfOpen, opened_at := some 0 }, true)) :=
  ⟨(open_allow_request_cooldown _ 0 3 rfl rfl).1 (by norm_num [Breaker.init]),
   (open_allow_request_cooldown _ 0 5 rfl rfl).2 (by norm_num [Breaker.init])⟩

/-- C3: for a breaker that has just entered HALF_OPEN
(`half_open_successes = 0`), fewer than `half_open_success_threshold`
consecutive `record_success` calls keep it HALF_OPEN counting the
successes; exactly `half_open_success_threshold` of them transition it to
CLOSED clearing `consecutive_failures`, `half_open_successes` and
`opened_at`; and a single `record_failure` after any number of successes
below the threshold transitions it to OPEN with `opened_at = now` and both
counters reset. -/
theorem half_open_success_and_failure (b : Breaker)
    (hb : b.state = .halfOpen) (h0 : b.half_open_successes = 0) :
    (∀ m, m < b.half_open_success_threshold →
        Breaker.record_success^[m] b = { b with half_open_successes := m }) ∧
    (0 < b.half_open_success_threshold →
        Breaker.record_success^[b.half_open_success_threshold] b =
          { b with state := .closed, consecutive_failures := 0,
                   half_open_successes := 0, opened_at := none }) ∧
    (∀ m, m < b.half_open_success_threshold → ∀ now : ℚ,
        Breaker.record_failure now (Breaker.record_success^[m] b) =
          { b with state := .opened, consecutive_failures := 0,
                   half_open_successes := 0, opened_at := some now }) := by
  have hiter : ∀ m, m < b.half_open_success_threshold →
      Breaker.record_success^[m] b = { b with half_open_successes := m } := by
    intro m hm
    rw [Breaker.record_success_iter_half_open m b hb (by omega)]
    simp [h0]
  refine ⟨hiter, ?_, ?_⟩
  · intro hpos
    have h1 : Breaker.record_success^[b.half_open_success_threshold] b =
        Breaker.record_success
          (Breaker.record_success^[b.half_open_success_threshold - 1] b) := by
      conv_lhs =>
        rw [show b.half_open_success_threshold =
          (b.half_open_success_threshold - 1) + 1 by omega]
      rw [Function.iterate_succ_apply']
    rw [h1, hiter _ (by omega),
      Breaker.record_success_half_open_close _ (by simpa using hb)
        (by simp; omega)]
  · intro m hm now
    rw [hiter m hm]
    simp only [Breaker.record_failure]
    split
    · simp [Breaker.trip_open]
    · simp_all

/-- Witness for C3 at `half_open_success_threshold = 2`: one success keeps
the breaker HALF_OPEN, two successes close it, and a failure after one
success reopens it. -/
theorem half_open_success_and_failure_witness :
    (Breaker.record_success^[1]
        { Breaker.init 3 5 2 with state := .halfOpen, opened_at := some 0 } =
      { Breaker.init 3 5 2 with state := .halfOpen, opened_at := some 0,
                                half_open_successes := 1 }) ∧
    (Breaker.record_success^[2]
        { Breaker.init 3 5 2 with state := .halfOpen, opened_at := some 0 } =
      { Breaker.init 3 5 2 with state := .closed, opened_at := none }) ∧
    (Breaker.record_failure 9
        (Breaker.record_success^[1]
          { Breaker.init 3 5 2 with state := .halfOpen, opened_at := some 0 }) =
      { Breaker.init 3 5 2 with state := .opened, opened_at := some 9 }) :=
  ⟨(half_open_success_and_failure
      { Breaker.init 3 5 2 with state := .halfOpen, opened_at := some 0 }
      rfl rfl).1 1 (by decide),
   (half_open_success_and_failure
      { Breaker.init 3 5 2 with state := .halfOpen, opened_at := some 0 }
      rfl rfl).2.1 (by decide),
   (half_open_success_and_failure
      { Breaker.init 3 5 2 with state := .halfOpen, opened_at := some 0 }
      rfl rfl).2.2 1 (by decide) 9⟩

/-- C9 (amended): `record_failure` on an OPEN breaker keeps the state OPEN
and leaves `half_open_successes` and `opened_at` unchanged, but it does
increment `consecutive_failures` (the claim that all fields are unchanged
is refuted by `open_record_failure_increments_cex`). -/
theorem open_record_failure_increments (b : Breaker) (now : ℚ)
    (hb : b.state = .opened) :
    Breaker.record_failure now b =
      { b with consecutive_failures := b.consecutive_failures + 1 } := by
  simp only [Breaker.record_failure]
  split
  · simp_all
  · split
    · simp_all
    · rfl

/-- Witness for C9 (amended): on a reachable OPEN breaker, `record_failure`
increments only `consecutive_failures`. -/
theorem open_record_failure_increments_witness :
    Breaker.record_failure 1 (Breaker.run (Breaker.init 1 5 1) [.failure 0]) =
      { Breaker.run (Breaker.init 1 5 1) [.failure 0] with
          consecutive_failures := 1 } :=
  open_record_failure_increments (Breaker.run (Breaker.init 1 5 1) [.failure 0]) 1
    (by decide)

/-- Counterexample to C9 as stated: a reachable OPEN breaker (one failure at
threshold 1) has `consecutive_failures = 0`, and `record_failure` changes
that field to 1, so the fields are not all unchanged. -/
theorem open_record_failure_increments_cex :
    (Breaker.run (Breaker.init 1 5 1) [.failure 0]).state = .opened ∧
    (Breaker.run (Breaker.init 1 5 1) [.failure 0]).consecutive_failures = 0 ∧
    (Breaker.record_failure 1
        (Breaker.run (Breaker.init 1 5 1) [.failure 0])).consecutive_failures
      = 1 := by
  decide

theorem dget_dset (m : List (String × ℚ)) (k : String) (v : ℚ) (q : String) :
    dget (dset m k v) q = if k = q then some v else dget m q := by
  induction m with
  | nil => simp [dset, dget]
  | cons kv rest ih =>
      obtain ⟨k', v'⟩ := kv
      by_cases hk : k' = k
      · subst hk
        by_cases hq : k' = q <;> simp [dset, dget, hq]
      · by_cases hq : k' = q
        · subst hq
          simp [dset, dget, hk, Ne.symm hk]
        · simp [dset, dget, hk, hq, ih]

theorem dget_eq_none_of_not_mem (src : List (String × ℚ)) (k : String)
    (h : k ∉ src.map Prod.fst) : dget src k = none := by
  induction src with
  | nil => rfl
  | cons kv rest ih =>
      simp only [List.map_cons, List.mem_cons] at h
      push_neg at h
      obtain ⟨h1, h2⟩ := h
      obtain ⟨k', v'⟩ := kv
      simp [dget, Ne.symm h1, ih h2]

theorem dget_dict_update_isSome (src m : List (String × ℚ)) (k : String)
    (h : (dget m k).isSome) : (dget (dict_update m src) k).isSome := by
  induction src generalizing m with
  | nil => exact h
  | cons kv rest ih =>
      obtain ⟨k', v'⟩ := kv
      show (dget (dict_update (dset m k' v') rest) k).isSome
      apply ih
      rw [dget_dset]
      by_cases hk : k' = k <;> simp [hk, h]

theorem dget_dict_update_nodup (src m : List (String × ℚ)) (k : String)
    (h : (src.map Prod.fst).Nodup) :
    dget (dict_update m src) k =
      if (dget src k).isSome then dget src k else dget m k := by
  induction src generalizing m with
  | nil => simp [dict_update, dget]
  | cons kv rest ih =>
      obtain ⟨k', v'⟩ := kv
      simp only [List.map_cons, List.nodup_cons] at h
      show dget (dict_update (dset m k' v') rest) k = _
      rw [ih _ h.2]
      by_cases hk : k' = k
      · subst hk
        rw [dget_eq_none_of_not_mem rest k' h.1]
        simp [dget, dget_dset]
      · simp only [dget, if_neg hk]
        rw [dget_dset, if_neg hk]

theorem dget_dict_update_isSome_src (src m : List (String × ℚ)) (k : String)
    (h : (dget src k).isSome) : (dget (dict_update m src) k).isSome := by
  induction src generalizing m with
  | nil => simp [dget] at h
  | cons kv rest ih =>
      obtain ⟨k', v'⟩ := kv
      show (dget (dict_update (dset m k' v') rest) k).isSome
      by_cases hk : k' = k
      · by_cases hr : (dget rest k).isSome
        · exact ih _ hr
        · apply dget_dict_update_isSome
          rw [dget_dset, if_pos hk]
          rfl
      · apply ih
        simpa [dget, hk] using h

/-- C5 (amended): a Config Watcher tick merges (`dict.update`) into the
in-memory weight map rather than replacing it.  With the document present
(distinct names), every name in the document gets the document's weight and
every name absent from the document keeps its previous weight; with the
document missing, the startup defaults are merged in the same way, so
default names may be overwritten back to their default and all other names
are retained.  (That the tick is not a replacement, and that a missing
document does not leave the map unchanged, is shown by
`poll_weights_tick_replace_cex`.) -/
theorem poll_weights_tick_merges (defaults vs m : List (String × ℚ))
    (k : String) :
    ((vs.map Prod.fst).Nodup →
        dget (poll_weights_tick defaults (some vs) m) k =
          if (dget vs k).isSome then dget vs k else dget m k) ∧
    ((defaults.map Prod.fst).Nodup →
        dget (poll_weights_tick defaults none m) k =
          if (dget defaults k).isSome then dget defaults k else dget m k) :=
  ⟨fun h => dget_dict_update_nodup vs m k h,
   fun h => dget_dict_update_nodup defaults m k h⟩

/-- Witness for C5 (amended): a tick with document `{b: 2}` over map
`{x: 7}` keeps `x ↦ 7`, and a tick with the document missing merges the
default `{a: 1}` over map `{a: 7}`. -/
theorem poll_weights_tick_merges_witness :
    (dget (poll_weights_tick [("a", 1)] (some [("b", 2)]) [("x", 7)]) "x" =
      if (dget [("b", 2)] "x").isSome then dget [("b", 2)] "x"
      else dget [("x", 7)] "x") ∧
    (dget (poll_weights_tick [("a", 1)] none [("a", 7)]) "a" =
      if (dget [("a", 1)] "a").isSome then dget [("a", 1)] "a"
      else dget [("a", 7)] "a") :=
  ⟨(poll_weights_tick_merges [("a", 1)] [("b", 2)] [("x", 7)] "x").1 (by decide),
   (poll_weights_tick_merges [("a", 1)] [("b", 2)] [("a", 7)] "a").2 (by decide)⟩

/-- Counterexample to C5 as stated: a tick with document `{a: 1}` over map
`{x: 7}` retains `x ↦ 7` although `x` is absent from the document (the map
is not replaced by the document's values), and a tick with the document
missing over map `{a: 7}` with default `{a: 1}` yields `a ↦ 1` (the map
before the tick, `a ↦ 7`, is not retained). -/
theorem poll_weights_tick_replace_cex :
    dget (poll_weights_tick [] (some [("a", 1)]) [("x", 7)]) "x" = some 7 ∧
    dget [("a", 1)] "x" = none ∧
    dget (poll_weights_tick [("a", 1)] none [("a", 7)]) "a" = some 1 ∧
    dget [("a", 7)] "a" = some 7 := by
  decide

/-- C10: the key set of the weight map is monotone non-decreasing: a name
present in the map is still present after any sequence of Config Watcher
ticks (each tick only `update`s, adding or overwriting names), and every
name of the parsed startup defaults is present in the map seeded by
`startup`. -/
theorem weight_map_keys_monotone (defaults : List (String × ℚ))
    (stores : List (Option (List (String × ℚ)))) (m : List (String × ℚ))
    (k : String) :
    ((dget m k).isSome →
        (dget (poll_weights_run defaults stores m) k).isSome) ∧
    ((dget defaults k).isSome →
        (dget (startup_weight_map defaults) k).isSome) := by
  constructor
  · intro h
    induction stores generalizing m with
    | nil => exact h
    | cons st stores ih =>
        exact ih _ (dget_dict_update_isSome _ _ _ h)
  · intro h
    exact dget_dict_update_isSome_src defaults [] k h

/-- Witness for C10: the name `a`, present in the map, survives a tick that
overwrites it and a tick with the document missing; and the seeded startup
map contains the default name `a`. -/
theorem weight_map_keys_monotone_witness :
    (dget (poll_weights_run [("d", 1)] [some [("a", 2)], none]
        [("a", 7)]) "a").isSome ∧
    (dget (startup_weight_map [("d", 1)]) "d").isSome :=
  ⟨(weight_map_keys_monotone [("d", 1)] [some [("a", 2)], none]
      [("a", 7)] "a").1 (by decide),
   (weight_map_keys_monotone [("d", 1)] [] [("a", 7)] "d").2 (by decide)⟩

theorem bisect_bounds (f : ℕ → ℚ) (x : ℚ) :
    ∀ (n lo hi : ℕ), hi - lo ≤ n → lo ≤ hi →
      lo ≤ bisect f x lo hi ∧ bisect f x lo hi ≤ hi := by
  intro n
  induction n with
  | zero =>
      intro lo hi h hle
      rw [bisect]
      have : ¬ lo < hi := by omega
      simp [this]
      omega
  | succ n ih =>
      intro lo hi h hle
      rw [bisect]
      split
      · rename_i hlh
        split
        · have := ih lo ((lo + hi) / 2) (by omega) (by omega)
          omega
        · have := ih ((lo + hi) / 2 + 1) hi (by omega) (by omega)
          omega
      · omega

theorem bisect_sorted_char (f : ℕ → ℚ) (x : ℚ) :
    ∀ (n lo hi : ℕ), hi - lo ≤ n → lo ≤ hi →
      (∀ i j, lo ≤ i → i ≤ j → j < hi → f i ≤ f j) →
      (∀ j, lo ≤ j → j < bisect f x lo hi → f j ≤ x) ∧
      (∀ j, bisect f x lo hi ≤ j → j < hi → x < f j) := by
  intro n
  induction n with
  | zero =>
      intro lo hi h hle hmono
      rw [bisect]
      have hnl : ¬ lo < hi := by omega
      simp only [hnl, dite_false]
      exact ⟨fun j h1 h2 => by omega, fun j h1 h2 => by omega⟩
  | succ n ih =>
      intro lo hi h hle hmono
      rw [bisect]
      split
      · rename_i hlh
        split
        · rename_i hxm
          -- x < f mid: recurse on [lo, mid]
          have hmid : lo ≤ (lo + hi) / 2 ∧ (lo + hi) / 2 < hi := by omega
          have hb := bisect_bounds f x n lo ((lo + hi) / 2) (by omega)
            (by omega)
          have hrec := ih lo ((lo + hi) / 2) (by omega) (by omega)
            (fun i j h1 h2 h3 => hmono i j h1 h2 (by omega))
          refine ⟨hrec.1, fun j h1 h2 => ?_⟩
          by_cases hj : j < (lo + hi) / 2
          · exact hrec.2 j h1 hj
          · calc x < f ((lo + hi) / 2) := hxm
              _ ≤ f j := hmono _ j hmid.1 (by omega) h2
        · rename_i hxm
          -- f mid ≤ x: recurse on [mid+1, hi]
          push_neg at hxm
          have hmid : lo ≤ (lo + hi) / 2 ∧ (lo + hi) / 2 < hi := by omega
          have hb := bisect_bounds f x n ((lo + hi) / 2 + 1) hi (by omega)
            (by omega)
          have hrec := ih ((lo + hi) / 2 + 1) hi (by omega) (by omega)
            (fun i j h1 h2 h3 => hmono i j (by omega) h2 h3)
          refine ⟨fun j h1 h2 => ?_, hrec.2⟩
          by_cases hj : j ≤ (lo + hi) / 2
          · calc f j ≤ f ((lo + hi) / 2) := hmono j _ h1 hj hmid.2
              _ ≤ x := hxm
          · exact hrec.1 j (by omega) h2
      · rename_i hnl
        exact ⟨fun j h1 h2 => by omega, fun j h1 h2 => by omega⟩

theorem prefixW_zero (ws : List ℚ) : prefixW ws 0 = 0 := rfl

theorem prefixW_length (ws : List ℚ) : prefixW ws ws.length = ws.sum := by
  simp [prefixW]

theorem prefixW_succ_le (ws : List ℚ) (hnn : ∀ w ∈ ws, 0 ≤ w) (j : ℕ) :
    prefixW ws j ≤ prefixW ws (j + 1) := by
  by_cases h : j < ws.length
  · have hw : 0 ≤ ws[j] := hnn _ (List.getElem_mem h)
    simp only [prefixW, List.take_succ, List.sum_append]
    rw [List.getElem?_eq_getElem h]
    simpa using hw
  · simp only [prefixW]
    rw [List.take_of_length_le (by omega), List.take_of_length_le (by omega)]

theorem prefixW_mono (ws : List ℚ) (hnn : ∀ w ∈ ws, 0 ≤ w) {i j : ℕ}
    (hij : i ≤ j) : prefixW ws i ≤ prefixW ws j := by
  induction hij with
  | refl => exact le_refl _
  | step h ih => exact le_trans ih (prefixW_succ_le ws hnn _)

/-- On nonnegative weights with positive total, `random.choices` picks
index `i` exactly when the draw `x ∈ [0, total)` lands in the half-open
interval `[sum(ws[:i]), sum(ws[:i+1]))` — an interval of length `ws[i]`. -/
theorem pickIdx_eq_iff (ws : List ℚ) (hnn : ∀ w ∈ ws, 0 ≤ w)
    (x : ℚ) (hx0 : 0 ≤ x) (hx1 : x < ws.sum) (i : ℕ) (hi : i < ws.length) :
    pickIdx ws x = i ↔ prefixW ws i ≤ x ∧ x < prefixW ws (i + 1) := by
  have hn : 0 < ws.length := by
    rcases ws with _ | ⟨a, l⟩
    · simp at hx1
      linarith
    · simp
  have hmono : ∀ a b, 0 ≤ a → a ≤ b → b < ws.length - 1 →
      (fun j => prefixW ws (j + 1)) a ≤ (fun j => prefixW ws (j + 1)) b :=
    fun a b _ hab _ => prefixW_mono ws hnn (by omega)
  have hpick : pickIdx ws x =
      bisect (fun j => prefixW ws (j + 1)) x 0 (ws.length - 1) := rfl
  have hb := bisect_bounds (fun j => prefixW ws (j + 1)) x (ws.length - 1) 0
    (ws.length - 1) (by omega) (Nat.zero_le _)
  have hc := bisect_sorted_char (fun j => prefixW ws (j + 1)) x
    (ws.length - 1) 0 (ws.length - 1) (by omega) (Nat.zero_le _) hmono
  rw [← hpick] at hb hc
  have hlow : prefixW ws (pickIdx ws x) ≤ x := by
    cases hr0 : pickIdx ws x with
    | zero => simpa [prefixW] using hx0
    | succ r' =>
        exact hc.1 r' (Nat.zero_le _) (by omega)
  have hhigh : x < prefixW ws (pickIdx ws x + 1) := by
    by_cases hlt : pickIdx ws x < ws.length - 1
    · exact hc.2 _ (le_refl _) hlt
    · have hrl : pickIdx ws x = ws.length - 1 := by
        have := hb.2
        omega
      rw [hrl, show ws.length - 1 + 1 = ws.length by omega, prefixW_length]
      exact hx1
  constructor
  · rintro rfl
    exact ⟨hlow, hhigh⟩
  · rintro ⟨h1, h2⟩
    by_contra hne
    rcases Nat.lt_or_ge (pickIdx ws x) i with hlt | hge
    · have : prefixW ws (pickIdx ws x + 1) ≤ prefixW ws i :=
        prefixW_mono ws hnn (by omega)
      linarith
    · have : prefixW ws (i + 1) ≤ prefixW ws (pickIdx ws x) :=
        prefixW_mono ws hnn (by omega)
      linarith

theorem sum_replicate_one (n : ℕ) :
    (List.replicate n (1 : ℚ)).sum = n := by
  simp

theorem prefixW_replicate (n i : ℕ) (h : i ≤ n) :
    prefixW (List.replicate n (1 : ℚ)) i = i := by
  simp [prefixW, List.take_replicate, min_eq_left h]

/-- C4 (amended): the selector assigns candidate `i` the raw weight
`W[c_i]` (0 when absent, with no clamping of negatives).  When
`Σ w_i > 0` it samples by the cumulative-weight draw of `random.choices`;
if moreover every `w_i ≥ 0`, index `i` is selected exactly for the draws
`u` in an interval of length `w_i / Σ w_i` — i.e. with probability
`w_i / Σ w_i`.  When `Σ w_i ≤ 0` (even if some individual weight is
positive — the situation refuted for the original claim by
`weighted_analyzer_choice_clamp_cex`) it selects uniformly: index `i` is
selected exactly for `u` in an interval of length `1 / len(C)`. -/
theorem weighted_analyzer_choice_distribution (wm : List (String × ℚ))
    (cands : List String) (u : ℚ) (i : ℕ) (hi : i < cands.length)
    (hu0 : 0 ≤ u) (hu1 : u < 1) :
    (0 < (choice_weights wm cands).sum →
        (∀ w ∈ choice_weights wm cands, 0 ≤ w) →
        (weighted_analyzer_choice_idx wm cands u = i ↔
          prefixW (choice_weights wm cands) i ≤
              u * (choice_weights wm cands).sum ∧
            u * (choice_weights wm cands).sum <
              prefixW (choice_weights wm cands) (i + 1))) ∧
    ((choice_weights wm cands).sum ≤ 0 →
        (weighted_analyzer_choice_idx wm cands u = i ↔
          (i : ℚ) ≤ u * cands.length ∧ u * cands.length < (i : ℚ) + 1)) := by
  constructor
  · intro hpos hnn
    have hne : ¬ (choice_weights wm cands).sum ≤ 0 := by linarith
    rw [weighted_analyzer_choice_idx, if_neg hne]
    have hlen : i < (choice_weights wm cands).length := by
      simpa [choice_weights] using hi
    exact pickIdx_eq_iff _ hnn _ (mul_nonneg hu0 (le_of_lt hpos))
      (by calc u * (choice_weights wm cands).sum
            < 1 * (choice_weights wm cands).sum :=
              mul_lt_mul_of_pos_right hu1 hpos
          _ = _ := one_mul _) i hlen
  · intro hle
    rw [weighted_analyzer_choice_idx, if_pos hle]
    have hn : 0 < cands.length := by omega
    have hnq : (0 : ℚ) < cands.length := by exact_mod_cast hn
    have hiff := pickIdx_eq_iff (List.replicate cands.length 1)
      (by intro w hw; rw [List.eq_of_mem_replicate hw]; norm_num)
      (u * (List.replicate cands.length (1 : ℚ)).sum)
      (by rw [sum_replicate_one]; positivity)
      (by rw [sum_replicate_one]
          calc u * (cands.length : ℚ) < 1 * cands.length :=
              mul_lt_mul_of_pos_right hu1 hnq
            _ = _ := one_mul _)
      i (by simpa using hi)
    rw [hiff, sum_replicate_one, prefixW_replicate _ _ (by omega),
      prefixW_replicate _ _ (by omega)]
    push_cast
    exact Iff.rfl

/-- Witness for C4 (amended) with weights `{a: 1, b: 3}` over `[a, b]` and
`u = 1/2`: the draw `x = 2` lands in `[1, 4)`, the interval of index 1. -/
theorem weighted_analyzer_choice_distribution_witness :
    weighted_analyzer_choice_idx [("a", 1), ("b", 3)] ["a", "b"] (1/2) = 1 ↔
      prefixW (choice_weights [("a", 1), ("b", 3)] ["a", "b"]) 1 ≤
          (1/2 : ℚ) * (choice_weights [("a", 1), ("b", 3)] ["a", "b"]).sum ∧
        (1/2 : ℚ) * (choice_weights [("a", 1), ("b", 3)] ["a", "b"]).sum <
          prefixW (choice_weights [("a", 1), ("b", 3)] ["a", "b"]) 2 :=
  (weighted_analyzer_choice_distribution [("a", 1), ("b", 3)] ["a", "b"]
      (1/2) 1 (by norm_num) (by norm_num) (by norm_num)).1
    (by simp [choice_weights, dget]; norm_num)
    (by intro w hw; simp [choice_weights, dget] at hw; rcases hw with h | h <;>
        norm_num [h])

/-- Counterexample to C4 as stated: with weights `{a: 5, b: -6}` the claim
assigns effective weights `max(0,·) = {a: 5, b: 0}` with positive sum, so
`b` must be selected with probability `0/5 = 0`; but the code sums the raw
weights (`5 + (-6) = -1 ≤ 0`) and therefore selects uniformly — at
`u = 1/2` it returns `"b"`. -/
theorem weighted_analyzer_choice_clamp_cex :
    weighted_analyzer_choice [("a", 5), ("b", -6)] ["a", "b"] (1/2) = "b" ∧
    max 0 ((dget [("a", 5), ("b", -6)] "b").getD 0) = 0 ∧
    0 < max 0 ((dget [("a", 5), ("b", -6)] "a").getD 0) +
        max 0 ((dget [("a", 5), ("b", -6)] "b").getD 0) := by
  refine ⟨?_, by simp [dget], by simp [dget]⟩
  have hle : (choice_weights [("a", 5), ("b", -6)] ["a", "b"]).sum ≤ 0 := by
    simp [choice_weights, dget]
    norm_num
  have h1 : weighted_analyzer_choice_idx [("a", 5), ("b", -6)] ["a", "b"]
      (1/2) = 1 := by
    rw [weighted_analyzer_choice_idx, if_pos hle]
    rw [show List.replicate (List.length ["a", "b"]) (1 : ℚ) = [1, 1]
      from rfl]
    rw [show ((1 : ℚ)/2 * ([(1 : ℚ), 1].sum)) = 1 by norm_num]
    exact (pickIdx_eq_iff [1, 1] (by norm_num) 1 (by norm_num) (by norm_num)
      1 (by norm_num)).2 ⟨by norm_num [prefixW], by norm_num [prefixW]⟩
  rw [weighted_analyzer_choice, h1]
  rfl

theorem allow_request_false_fst (b : Breaker) (t : ℚ)
    (h : (Breaker.allow_request t b).2 = false) :
    (Breaker.allow_request t b).1 = b := by
  cases hs : b.state with
  | closed => simp [Breaker.allow_request, hs] at h
  | halfOpen => simp [Breaker.allow_request, hs] at h
  | opened =>
      cases ho : b.opened_at with
      | none => simp [Breaker.allow_request, hs, ho]
      | some t0 =>
          by_cases hc : b.recovery_timeout ≤ t - t0
          · simp [Breaker.allow_request, hs, ho, hc] at h
          · simp [Breaker.allow_request, hs, ho, hc]

theorem update_bk_self (bk : String → Breaker) (n : String) :
    update_bk bk n (bk n) = bk := by
  funext m
  unfold update_bk
  split
  · rename_i hm
    rw [hm]
  · rfl

theorem pickIdx_lt (ws : List ℚ) (x : ℚ) (h : 0 < ws.length) :
    pickIdx ws x < ws.length := by
  have hb := bisect_bounds (fun j => prefixW ws (j + 1)) x (ws.length - 1) 0
    (ws.length - 1) (by omega) (Nat.zero_le _)
  have hpick : pickIdx ws x =
      bisect (fun j => prefixW ws (j + 1)) x 0 (ws.length - 1) := rfl
  omega

theorem weighted_analyzer_choice_idx_lt (wm : List (String × ℚ))
    (rem : List String) (u : ℚ) (h : rem ≠ []) :
    weighted_analyzer_choice_idx wm rem u < rem.length := by
  have hl : 0 < rem.length := List.length_pos.mpr h
  rw [weighted_analyzer_choice_idx]
  split
  · have := pickIdx_lt (List.replicate rem.length 1)
      (u * (List.replicate rem.length (1 : ℚ)).sum) (by simpa using hl)
    simpa using this
  · have hcw : 0 < (choice_weights wm rem).length := by
      simpa [choice_weights] using hl
    have := pickIdx_lt _ (u * (choice_weights wm rem).sum) hcw
    simpa [choice_weights] using this

theorem weighted_analyzer_choice_mem (wm : List (String × ℚ))
    (rem : List String) (u : ℚ) (h : rem ≠ []) :
    weighted_analyzer_choice wm rem u ∈ rem := by
  rw [weighted_analyzer_choice]
  have hlt := weighted_analyzer_choice_idx_lt wm rem u h
  rw [List.getD_eq_getElem rem "" hlt]
  exact List.getElem_mem hlt

theorem ingest_loop_all_blocked (wm : List (String × ℚ))
    (cands : List String) (rpc : String → Bool) (us tA tF : ℕ → ℚ)
    (count : ℕ) :
    ∀ (fuel : ℕ) (tried : List String) (bk : String → Breaker)
      (step succ fail : ℕ),
      cands.Nodup → tried ⊆ cands → tried.Nodup →
      cands.length - tried.length < fuel →
      (∀ c ∈ cands, ∀ k, (Breaker.allow_request (tA k) (bk c)).2 = false) →
      ingest_loop wm cands rpc us tA tF count fuel tried bk step succ fail =
        (.err 503 "All analyzers are blocked by circuit breakers.", bk,
          succ, fail) := by
  intro fuel
  induction fuel with
  | zero =>
      intro tried bk step succ fail hnd hsub hndt hfuel hden
      omega
  | succ fuel ih =>
      intro tried bk step succ fail hnd hsub hndt hfuel hden
      rw [ingest_loop]
      by_cases hlt : tried.length < cands.length
      · rw [if_pos hlt]
        have hrem : cands.filter (fun c => !tried.contains c) ≠ [] := by
          intro hemp
          rw [List.filter_eq_nil_iff] at hemp
          have hsub2 : cands ⊆ tried := by
            intro c hc
            have := hemp c hc
            simpa using this
          have := (List.Nodup.subperm hnd hsub2).length_le
          omega
        have htmem : loop_target wm cands tried (us step) ∈
            cands.filter (fun c => !tried.contains c) :=
          weighted_analyzer_choice_mem _ _ _ hrem
        have htc : loop_target wm cands tried (us step) ∈ cands :=
          (List.mem_filter.mp htmem).1
        have htnt : loop_target wm cands tried (us step) ∉ tried := by
          have := (List.mem_filter.mp htmem).2
          simpa using this
        have hfalse := hden _ htc step
        rw [if_neg (by simp [hfalse])]
        rw [allow_request_false_fst _ _ hfalse, update_bk_self]
        apply ih _ bk (step + 1) succ fail hnd ?_ ?_ ?_ hden
        · intro x hx
          rcases List.mem_append.mp hx with hx | hx
          · exact hsub hx
          · rw [List.mem_singleton.mp hx]
            exact htc
        · simpa [List.nodup_append] using ⟨hndt, htnt⟩
        · simp only [List.length_append, List.length_singleton]
          omega
      · rw [if_neg hlt]

/-- C6 (amended): when the candidate set is non-empty and every candidate's
breaker denies `allow_request()` at every clock read of the call, the
retry loop exhausts all candidates with no RPC attempt and `ingest` fails
with HTTP 503 carrying exactly the detail
`"All analyzers are blocked by circuit breakers."` (with capital `A`,
`are`, and a trailing period — the wording of the claim is refuted by
`ingest_all_blocked_message_cex`); the breakers are unchanged and both the
success and the failure counter increments are zero. -/
theorem ingest_all_blocked (cands : List String) (wm : List (String × ℚ))
    (bk : String → Breaker) (rpc : String → Bool) (us tA tF : ℕ → ℚ)
    (count : ℕ) (hne : cands ≠ []) (hnd : cands.Nodup)
    (hden : ∀ c ∈ cands, ∀ k, (Breaker.allow_request (tA k) (bk c)).2 =
      false) :
    ingest cands wm bk rpc us tA tF count =
      (.err 503 "All analyzers are blocked by circuit breakers.", bk, 0,
        0) := by
  rw [ingest, if_neg (by simpa using hne)]
  exact ingest_loop_all_blocked wm cands rpc us tA tF count
    (cands.length + 1) [] bk 0 0 0 hnd (by simp) (by simp) (by simp) hden

/-- Witness for C6 (amended): two analyzers, both breakers OPEN since time
0 with a 5-second cooldown, clock at 1: the request is rejected 503 with
the code's exact detail string and nothing changes. -/
theorem ingest_all_blocked_witness :
    ingest ["a", "b"] []
        (fun _ => { Breaker.init 3 5 1 with state := .opened, opened_at := some 0 })
        (fun _ => true) (fun _ => 0) (fun _ => 1) (fun _ => 0) 4 =
      (.err 503 "All analyzers are blocked by circuit breakers.",
        (fun _ => { Breaker.init 3 5 1 with state := .opened, opened_at := some 0 }),
        0, 0) :=
  ingest_all_blocked ["a", "b"] []
    (fun _ => { Breaker.init 3 5 1 with state := .opened, opened_at := some 0 })
    (fun _ => true) (fun _ => 0) (fun _ => 1) (fun _ => 0) 4
    (by simp) (by simp)
    (by
      intro c hc k
      simp only [Breaker.allow_request]
      norm_num [Breaker.init])

/-- Counterexample to C6 as stated: in the all-blocked case the code raises
`HTTPException(503, "All analyzers are blocked by circuit breakers.")`,
which is not the claimed exact message
`"all analyzers blocked by circuit breakers"`. -/
theorem ingest_all_blocked_message_cex :
    (ingest ["a"] []
        (fun _ => { Breaker.init 3 5 1 with state := .opened, opened_at := some 0 })
        (fun _ => true) (fun _ => 0) (fun _ => 1) (fun _ => 0) 1).1 =
      .err 503 "All analyzers are blocked by circuit breakers." ∧
    "All analyzers are blocked by circuit breakers." ≠
      "all analyzers blocked by circuit breakers" := by
  constructor
  · rw [ingest, if_neg (by simp)]
    rw [ingest_loop_all_blocked [] ["a"] (fun _ => true) (fun _ => 0)
      (fun _ => 1) (fun _ => 0) 1 (["a"].length + 1) []
      (fun _ => { Breaker.init 3 5 1 with state := .opened, opened_at := some 0 })
      0 0 0 (by simp) (by simp) (by simp) (by simp)
      (by
        intro c hc k
        simp only [Breaker.allow_request]
        norm_num [Breaker.init])]
  · decide

/-- C8 (amended): a request body failing pydantic validation (its
`messages` field missing, or some message missing `timestamp` or
`message`) is rejected with a 422 structured error before the handler
runs: no analyzer is called, no breaker is mutated, no counter is
incremented.  But an empty `messages` sequence and an empty `message`
string both pass validation — `LogPacket` declares no minimum length — so
such requests are dispatched like any other (refuting the claim's 4xx,
see `ingest_empty_messages_cex`). -/
theorem post_ingest_validation (r : RawLogPacket) (cands : List String)
    (wm : List (String × ℚ)) (bk : String → Breaker) (rpc : String → Bool)
    (us tA tF : ℕ → ℚ) :
    (validate_log_packet r = none →
        post_ingest r cands wm bk rpc us tA tF =
          (.err 422 "validation error", bk, 0, 0)) ∧
    (∀ (t : String) (l : Option String) (a : Option (List (String × String))),
        validate_log_message ⟨some t, l, some "", a⟩ =
          some ⟨t, l.getD "INFO", "", a.getD []⟩) ∧
    (∀ s : Option String,
        validate_log_packet ⟨s, some []⟩ = some ⟨s.getD "sim", []⟩) := by
  refine ⟨?_, fun t l a => rfl, fun s => rfl⟩
  intro h
  rw [post_ingest, h]

/-- Witness for C8 (amended): a body with no `messages` field is rejected
with 422 and nothing changes. -/
theorem post_ingest_validation_witness :
    post_ingest ⟨none, none⟩ ["a"] [] (fun _ => Breaker.init 3 5 1)
        (fun _ => true) (fun _ => 0) (fun _ => 0) (fun _ => 0) =
      (.err 422 "validation error", (fun _ => Breaker.init 3 5 1), 0, 0) :=
  (post_ingest_validation ⟨none, none⟩ ["a"] [] (fun _ => Breaker.init 3 5 1)
    (fun _ => true) (fun _ => 0) (fun _ => 0) (fun _ => 0)).1 rfl

/-- Counterexample to C8 as stated: a packet with `messages = []` passes
validation and is dispatched — with one healthy analyzer the response is
200 `{accepted_by: a, count: 0}` and the success counter increments, not a
4xx with no analyzer called; and a message with an empty `message` string
also validates. -/
theorem ingest_empty_messages_cex :
    (post_ingest ⟨none, some []⟩ ["a"] [] (fun _ => Breaker.init 3 5 1)
        (fun _ => true) (fun _ => 0) (fun _ => 0) (fun _ => 0)).1 =
      .ok "a" 0 ∧
    (post_ingest ⟨none, some []⟩ ["a"] [] (fun _ => Breaker.init 3 5 1)
        (fun _ => true) (fun _ => 0) (fun _ => 0) (fun _ => 0)).2.2.1 = 1 ∧
    validate_log_message ⟨some "2024", some "INFO", some "", none⟩ =
      some ⟨"2024", "INFO", "", []⟩ := by
  have htarget : ∀ u : ℚ, loop_target [] ["a"] [] u = "a" := fun u =>
    List.mem_singleton.mp (weighted_analyzer_choice_mem [] ["a"] u (by simp))
  have hallow : ∀ t : ℚ,
      Breaker.allow_request t (Breaker.init 3 5 1) =
        (Breaker.init 3 5 1, true) := fun t => rfl
  have hpost : post_ingest ⟨none, some []⟩ ["a"] []
      (fun _ => Breaker.init 3 5 1) (fun _ => true) (fun _ => 0)
      (fun _ => 0) (fun _ => 0) =
      ingest_loop [] ["a"] (fun _ => true) (fun _ => 0) (fun _ => 0)
        (fun _ => 0) 0 (["a"].length + 1) [] (fun _ => Breaker.init 3 5 1)
        0 0 0 := rfl
  refine ⟨?_, ?_, rfl⟩
  · rw [hpost, ingest_loop]
    simp [htarget, hallow]
  · rw [hpost, ingest_loop]
    simp [htarget, hallow]

/-- C7 (amended): in every reachable breaker state, `opened_at` is set if
and only if the state is not CLOSED.  It is set on entering OPEN and stays
set across the OPEN → HALF_OPEN transition (the code's `transition` helper
does not clear it — the claim that it is unset in HALF_OPEN is refuted by
`opened_at_set_in_half_open_cex`); it is cleared only when the breaker
closes. -/
theorem opened_at_iff_not_closed (b : Breaker) (hb : Breaker.Reachable b) :
    b.opened_at.isSome ↔ b.state ≠ .closed := by
  induction hb with
  | init ft rt host hft hrt hhost => simp [Breaker.init]
  | step b op hb ih =>
      cases op with
      | allow now =>
          cases hs : b.state with
          | closed => simp_all [Breaker.step, Breaker.allow_request]
          | opened =>
              cases ho : b.opened_at with
              | none => simp_all [Breaker.step, Breaker.allow_request]
              | some t =>
                  simp only [Breaker.step, Breaker.allow_request, hs, ho]
                  split_ifs with h
                  · simp [ho]
                  · simp_all
          | halfOpen => simp_all [Breaker.step, Breaker.allow_request]
      | success =>
          show (Breaker.record_success b).opened_at.isSome ↔
            (Breaker.record_success b).state ≠ .closed
          cases hs : b.state with
          | halfOpen =>
              by_cases hth :
                  b.half_open_success_threshold ≤ b.half_open_successes + 1
              · rw [Breaker.record_success_half_open_close b hs hth]
                simp
              · rw [Breaker.record_success_half_open_below b hs (by omega)]
                simp_all
          | closed =>
              rw [Breaker.record_success_not_half_open b (by simp [hs])]
              simp_all
          | opened =>
              rw [Breaker.record_success_not_half_open b (by simp [hs])]
              simp_all
      | failure now =>
          show (Breaker.record_failure now b).opened_at.isSome ↔
            (Breaker.record_failure now b).state ≠ .closed
          cases hs : b.state with
          | halfOpen =>
              rw [Breaker.record_failure_half_open b now hs]
              simp
          | closed =>
              by_cases hth :
                  b.failure_threshold ≤ b.consecutive_failures + 1
              · rw [Breaker.record_failure_closed_trip b now hs hth]
                simp
              · rw [Breaker.record_failure_closed_no_trip b now hs (by omega)]
                simp_all
          | opened =>
              rw [Breaker.record_failure_opened b now hs]
              simp_all

/-- Witness for C7 (amended) at the freshly constructed breaker: CLOSED and
`opened_at` unset. -/
theorem opened_at_iff_not_closed_witness :
    (Breaker.init 3 5 1).opened_at.isSome ↔
      (Breaker.init 3 5 1).state ≠ .closed :=
  opened_at_iff_not_closed (Breaker.init 3 5 1)
    (Breaker.Reachable.init 3 5 1 (by decide) (by decide) (by decide))

/-- Counterexample to C7 as stated: a reachable HALF_OPEN breaker (one
failure at threshold 1, then an `allow_request` after the cooldown) still
has `opened_at` set — the OPEN → HALF_OPEN transition does not clear it. -/
theorem opened_at_set_in_half_open_cex :
    Breaker.Reachable
        (Breaker.run (Breaker.init 1 5 1) [.failure 0, .allow 5]) ∧
    (Breaker.run (Breaker.init 1 5 1) [.failure 0, .allow 5]).state =
        .halfOpen ∧
    (Breaker.run (Breaker.init 1 5 1) [.failure 0, .allow 5]).opened_at =
        some 0 := by
  have hrun : Breaker.run (Breaker.init 1 5 1) [.failure 0, .allow 5] =
      { failure_threshold := 1, recovery_timeout := 5,
        half_open_success_threshold := 1, state := .halfOpen,
        consecutive_failures := 0, half_open_successes := 0,
        opened_at := some 0 } := by
    show Breaker.step
        (Breaker.step (Breaker.init 1 5 1) (.failure 0)) (.allow 5) = _
    rw [show Breaker.step (Breaker.init 1 5 1) (.failure 0) =
        { failure_threshold := 1, recovery_timeout := 5,
          half_open_success_threshold := 1, state := .opened,
          consecutive_failures := 0, half_open_successes := 0,
          opened_at := some 0 } from by
      simp [Breaker.step, Breaker.record_failure, Breaker.init,
        Breaker.trip_open]]
    simp [Breaker.step, Breaker.allow_request]
  refine ⟨?_, by rw [hrun], by rw [hrun]⟩
  show Breaker.Reachable
    (Breaker.step (Breaker.step (Breaker.init 1 5 1) (.failure 0)) (.allow 5))
  exact Breaker.Reachable.step _ _ (Breaker.Reachable.step _ _
    (Breaker.Reachable.init 1 5 1 (by norm_num) (by norm_num) (by norm_num)))

end Distributor
